import Mathlib

/-
Verification of the fee-config-manager precompile (precompile/fee_config_manager.go).

The Go source is shallowly embedded: storage words (common.Hash) and account
addresses are naturals carrying the numeric value of their big-endian bytes,
byte strings are lists of naturals below 256, the StateDB capability is a total
map from (contract address, slot key) to a stored word, and handlers are pure
functions that return the post state together with the output, the remaining
gas and the error of the call.  Pieces of the repository that the handlers use
but whose source is not available here (deductGas, the allow-list read, the
per-slot gas constants, the external fee-config validator) are modelled from
the specification and marked as such in their doc comments.
-/

set_option maxRecDepth 100000

namespace Precompile

/-- Account address, the numeric value of its 20 big-endian bytes. -/
abbrev Addr := Nat

/-- Storage word (common.Hash), the numeric value of its 32 big-endian bytes. -/
abbrev Word := Nat

/-- Numeric value of a big-endian byte string (big.Int.SetBytes). -/
def bytesToNat (l : List Nat) : Nat := l.foldl (fun acc b => acc * 256 + b) 0

/-- Big-endian byte string of length k representing n modulo 256 ^ k. -/
def beBytes : Nat → Nat → List Nat
  | 0, _ => []
  | k + 1, n => beBytes k (n / 256) ++ [n % 256]

/-- The 32 bytes of a storage word (common.Hash.Bytes). -/
def hashBytes (n : Nat) : List Nat := beBytes 32 n

/-- Conversion of a big.Int to a storage word (common.BigToHash keeps the low 32 bytes). -/
def bigToHash (n : Nat) : Word := n % 2 ^ 256

/-- Field key of gasLimit; the field keys are the iota constants of fee_config_manager.go. -/
def gasLimitKey : Nat := 1

def targetBlockRateKey : Nat := 2

def minBaseFeeKey : Nat := 3

def targetGasKey : Nat := 4

def baseFeeChangeDenominatorKey : Nat := 5

def minBlockGasCostKey : Nat := 6

def maxBlockGasCostKey : Nat := 7

def blockGasCostStepKey : Nat := 8

/-- Number of fields in the FeeConfig struct. -/
def numFeeConfigField : Nat := 8

/-- Byte length of a packed fee config: common.HashLength * numFeeConfigField. -/
def feeConfigInputLen : Nat := 32 * numFeeConfigField

/-- Storage slot key of fee-config field i: the word whose first byte is i and
whose remaining 31 bytes are zero, as the Go composite literal builds it. -/
def feeConfigSlotKey (i : Nat) : Word := bytesToNat (i :: List.replicate 31 0)

/-- Storage slot key of the last-changed-at word: the word whose first three
bytes are the characters l, c, a (108, 99, 97) and whose remaining bytes are zero. -/
def feeConfigLastChangedAtKey : Word := bytesToNat (108 :: 99 :: 97 :: List.replicate 29 0)

/-- Persistent state: a stored word for every (contract address, slot key) pair. -/
def StateDB := Addr → Word → Word

/-- StateDB.GetState. -/
def getState (s : StateDB) (a : Addr) (k : Word) : Word := s a k

/-- StateDB.SetState. -/
def setState (s : StateDB) (a : Addr) (k : Word) (v : Word) : StateDB :=
  fun a2 k2 => if a2 = a ∧ k2 = k then v else s a2 k2

/-- Modelled from the spec: the BlockContext host capability supplies the
current block number, an integer or absent (a nil big.Int in Go). -/
def BlockContext := Option Nat

/-- Modelled from the spec: the fixed contract address of the fee config
manager; its definition (params.go) is not under src. -/
def FeeConfigManagerAddress : Addr := 0x0200000000000000000000000000000000000003

/-- FeeConfig record (commontype.FeeConfig): eight ordered numeric fields.
targetBlockRate is a uint64 in the source, so every operation that produces it
truncates modulo 2 ^ 64. -/
structure FeeConfig where
  gasLimit : Nat
  targetBlockRate : Nat
  minBaseFee : Nat
  targetGas : Nat
  baseFeeChangeDenominator : Nat
  minBlockGasCost : Nat
  maxBlockGasCost : Nat
  blockGasCostStep : Nat
deriving DecidableEq, Repr

/-- The zero value commontype.FeeConfig\x7b\x7d (nil big.Int pointers read as zero). -/
def emptyFeeConfig : FeeConfig :=
  { gasLimit := 0, targetBlockRate := 0, minBaseFee := 0, targetGas := 0,
    baseFeeChangeDenominator := 0, minBlockGasCost := 0, maxBlockGasCost := 0,
    blockGasCostStep := 0 }

/-- Errors a handler can surface: the vmerrs values and the fmt.Errorf results
of fee_config_manager.go. -/
inductive PrecompileErr where
  | outOfGas
  | writeProtection
  | invalidFeeConfigInputLen (len : Nat)
  | cannotChangeFee (caller : Addr)
  | invalidFeeConfig
  | blockNumberNil
deriving DecidableEq, Repr

/-- Modelled from the spec: deductGas (contract.go, not under src) compares the
supplied gas with the fixed cost of the handler; insufficient gas yields
OutOfGas with zero remaining gas, otherwise the cost is subtracted. -/
def deductGas (suppliedGas requiredGas : Nat) : Nat × Option PrecompileErr :=
  if suppliedGas < requiredGas then (0, some .outOfGas)
  else (suppliedGas - requiredGas, none)

/-- Gas cost of setFeeConfig: writeGasCostPerSlot * (numFeeConfigField + 1),
one extra slot for last-changed-at.  The per-slot constant lives in contract.go
(not under src), so it is kept as a parameter. -/
def SetFeeConfigGasCost (writeGasCostPerSlot : Nat) : Nat :=
  writeGasCostPerSlot * (numFeeConfigField + 1)

/-- Gas cost of getFeeConfig: readGasCostPerSlot * numFeeConfigField. -/
def GetFeeConfigGasCost (readGasCostPerSlot : Nat) : Nat :=
  readGasCostPerSlot * numFeeConfigField

/-- Gas cost of getFeeConfigLastChangedAt: one readGasCostPerSlot. -/
def GetLastChangedAtGasCost (readGasCostPerSlot : Nat) : Nat := readGasCostPerSlot

/-- Role of an address on a precompile allow list. -/
inductive AllowListRole where
  | noRole
  | enabledRole
  | adminRole
deriving DecidableEq, Repr

/-- Modelled from the spec: the role slot of an account is derived from the
account address alone (allow_list.go is not under src); the address bytes are
right-aligned in the 32-byte key, so the key is the address value itself and
never aliases the fee-config slots. -/
def allowListSlotKey (account : Addr) : Word := account % 2 ^ 256

/-- Modelled from the spec: getAllowListStatus reads the role word of the
account for the precompile from state; a zero or unknown word is Role None. -/
def getAllowListStatus (s : StateDB) (precompileAddr : Addr) (account : Addr) :
    AllowListRole :=
  let raw := getState s precompileAddr (allowListSlotKey account)
  if raw = 1 then .enabledRole
  else if raw = 2 then .adminRole
  else .noRole

/-- Modelled from the spec: IsEnabled holds for Role Enabled and Role Admin. -/
def AllowListRole.IsEnabled : AllowListRole → Bool
  | .noRole => false
  | .enabledRole => true
  | .adminRole => true

/-- Modelled from the spec: packOrderedHashes (contract.go, not under src)
copies each 32-byte word, in order, into the destination buffer. -/
def packOrderedHashes (hashes : List Word) : List Nat :=
  (hashes.map hashBytes).flatten

/-- The ordered word list built in packFeeConfigHelper; SetUint64 coerces
targetBlockRate through uint64. -/
def feeConfigHashes (c : FeeConfig) : List Word :=
  [bigToHash c.gasLimit,
   bigToHash (c.targetBlockRate % 2 ^ 64),
   bigToHash c.minBaseFee,
   bigToHash c.targetGas,
   bigToHash c.baseFeeChangeDenominator,
   bigToHash c.minBlockGasCost,
   bigToHash c.maxBlockGasCost,
   bigToHash c.blockGasCostStep]

/-- packFeeConfigHelper in its selector-free branch. -/
def packFeeConfigHelper (c : FeeConfig) : List Nat :=
  packOrderedHashes (feeConfigHashes c)

/-- PackFeeConfig packs a fee config, without the selector. -/
def PackFeeConfig (c : FeeConfig) : List Nat := packFeeConfigHelper c

/-- Modelled from the spec: returnPackedHash (contract.go, not under src)
selects the 32-byte word at the given index of the input. -/
def returnPackedHash (input : List Nat) (listIndex : Nat) : List Nat :=
  (input.drop (32 * listIndex)).take 32

/-- UnpackFeeConfigInput parses eight 32-byte words into a FeeConfig, mirroring
the Go multi-return (record, error); a wrong input length yields the zero
record and an error, and Uint64 keeps the low 64 bits of targetBlockRate. -/
def UnpackFeeConfigInput (input : List Nat) : FeeConfig × Option PrecompileErr :=
  if input.length ≠ feeConfigInputLen then
    (emptyFeeConfig, some (.invalidFeeConfigInputLen input.length))
  else
    ({ gasLimit := bytesToNat (returnPackedHash input 0),
       targetBlockRate := bytesToNat (returnPackedHash input 1) % 2 ^ 64,
       minBaseFee := bytesToNat (returnPackedHash input 2),
       targetGas := bytesToNat (returnPackedHash input 3),
       baseFeeChangeDenominator := bytesToNat (returnPackedHash input 4),
       minBlockGasCost := bytesToNat (returnPackedHash input 5),
       maxBlockGasCost := bytesToNat (returnPackedHash input 6),
       blockGasCostStep := bytesToNat (returnPackedHash input 7) }, none)

/-- GetStoredFeeConfig reads the eight field slots in field order; Uint64 keeps
the low 64 bits of the targetBlockRate word. -/
def GetStoredFeeConfig (stateDB : StateDB) : FeeConfig :=
  { gasLimit := getState stateDB FeeConfigManagerAddress (feeConfigSlotKey gasLimitKey),
    targetBlockRate :=
      getState stateDB FeeConfigManagerAddress (feeConfigSlotKey targetBlockRateKey) % 2 ^ 64,
    minBaseFee := getState stateDB FeeConfigManagerAddress (feeConfigSlotKey minBaseFeeKey),
    targetGas := getState stateDB FeeConfigManagerAddress (feeConfigSlotKey targetGasKey),
    baseFeeChangeDenominator :=
      getState stateDB FeeConfigManagerAddress (feeConfigSlotKey baseFeeChangeDenominatorKey),
    minBlockGasCost :=
      getState stateDB FeeConfigManagerAddress (feeConfigSlotKey minBlockGasCostKey),
    maxBlockGasCost :=
      getState stateDB FeeConfigManagerAddress (feeConfigSlotKey maxBlockGasCostKey),
    blockGasCostStep :=
      getState stateDB FeeConfigManagerAddress (feeConfigSlotKey blockGasCostStepKey) }

/-- GetFeeConfigLastChangedAt reads the last-changed-at slot. -/
def GetFeeConfigLastChangedAt (stateDB : StateDB) : Nat :=
  getState stateDB FeeConfigManagerAddress feeConfigLastChangedAtKey

/-- Validation of a fee config (commontype.FeeConfig.Verify, not under src).
Modelled from the spec: the exact numeric policy bounds are an injected,
external chain policy, so the validator is kept as a parameter of every
operation that calls it. -/
def FeeConfigVerify := FeeConfig → Bool

/-- StoreFeeConfig validates the config, then writes the eight field slots in
field order, then reads the block number and, only when it is present, writes
the last-changed-at slot; an absent block number surfaces an error after the
eight field writes have already happened. -/
def StoreFeeConfig (verify : FeeConfigVerify) (stateDB : StateDB)
    (feeConfig : FeeConfig) (blockContext : BlockContext) :
    StateDB × Option PrecompileErr :=
  if verify feeConfig = false then (stateDB, some .invalidFeeConfig)
  else
    let s1 := setState stateDB FeeConfigManagerAddress (feeConfigSlotKey gasLimitKey)
      (bigToHash feeConfig.gasLimit)
    let s2 := setState s1 FeeConfigManagerAddress (feeConfigSlotKey targetBlockRateKey)
      (bigToHash (feeConfig.targetBlockRate % 2 ^ 64))
    let s3 := setState s2 FeeConfigManagerAddress (feeConfigSlotKey minBaseFeeKey)
      (bigToHash feeConfig.minBaseFee)
    let s4 := setState s3 FeeConfigManagerAddress (feeConfigSlotKey targetGasKey)
      (bigToHash feeConfig.targetGas)
    let s5 := setState s4 FeeConfigManagerAddress (feeConfigSlotKey baseFeeChangeDenominatorKey)
      (bigToHash feeConfig.baseFeeChangeDenominator)
    let s6 := setState s5 FeeConfigManagerAddress (feeConfigSlotKey minBlockGasCostKey)
      (bigToHash feeConfig.minBlockGasCost)
    let s7 := setState s6 FeeConfigManagerAddress (feeConfigSlotKey maxBlockGasCostKey)
      (bigToHash feeConfig.maxBlockGasCost)
    let s8 := setState s7 FeeConfigManagerAddress (feeConfigSlotKey blockGasCostStepKey)
      (bigToHash feeConfig.blockGasCostStep)
    match blockContext with
    | none => (s8, some .blockNumberNil)
    | some blockNumber =>
      (setState s8 FeeConfigManagerAddress feeConfigLastChangedAtKey
        (bigToHash blockNumber), none)

/-- Result of a stateful precompile handler: output bytes, remaining gas,
error, and the state after the call (the Go handler mutates its StateDB in
place, so the post state is returned explicitly here). -/
structure PrecompileResult where
  ret : Option (List Nat)
  remainingGas : Nat
  err : Option PrecompileErr
  state : StateDB

/-- setFeeConfig handler: deducts gas, rejects read-only contexts, unpacks the
input, checks the allow list and stores the config with the block number. -/
def setFeeConfig (writeGasCostPerSlot : Nat) (verify : FeeConfigVerify)
    (stateDB : StateDB) (blockContext : BlockContext) (caller : Addr)
    (addr : Addr) (input : List Nat) (suppliedGas : Nat) (readOnly : Bool) :
    PrecompileResult :=
  match deductGas suppliedGas (SetFeeConfigGasCost writeGasCostPerSlot) with
  | (_, some e) => ⟨none, 0, some e, stateDB⟩
  | (remainingGas, none) =>
    if readOnly then ⟨none, remainingGas, some .writeProtection, stateDB⟩
    else
      match UnpackFeeConfigInput input with
      | (_, some e) => ⟨none, remainingGas, some e, stateDB⟩
      | (feeConfig, none) =>
        let callerStatus := getAllowListStatus stateDB FeeConfigManagerAddress caller
        if callerStatus.IsEnabled = false then
          ⟨none, remainingGas, some (.cannotChangeFee caller), stateDB⟩
        else
          match StoreFeeConfig verify stateDB feeConfig blockContext with
          | (s2, some e) => ⟨none, remainingGas, some e, s2⟩
          | (s2, none) => ⟨some [], remainingGas, none, s2⟩

/-- getFeeConfig handler: deducts gas and returns the stored config, packed. -/
def getFeeConfig (readGasCostPerSlot : Nat) (stateDB : StateDB) (caller : Addr)
    (addr : Addr) (input : List Nat) (suppliedGas : Nat) (readOnly : Bool) :
    PrecompileResult :=
  match deductGas suppliedGas (GetFeeConfigGasCost readGasCostPerSlot) with
  | (_, some e) => ⟨none, 0, some e, stateDB⟩
  | (remainingGas, none) =>
    ⟨some (PackFeeConfig (GetStoredFeeConfig stateDB)), remainingGas, none, stateDB⟩

/-- getFeeConfigLastChangedAt handler: deducts gas and returns the stored block
number as one 32-byte word. -/
def getFeeConfigLastChangedAt (readGasCostPerSlot : Nat) (stateDB : StateDB)
    (caller : Addr) (addr : Addr) (input : List Nat) (suppliedGas : Nat)
    (readOnly : Bool) : PrecompileResult :=
  match deductGas suppliedGas (GetLastChangedAtGasCost readGasCostPerSlot) with
  | (_, some e) => ⟨none, 0, some e, stateDB⟩
  | (remainingGas, none) =>
    ⟨some (hashBytes (bigToHash (GetFeeConfigLastChangedAt stateDB))),
      remainingGas, none, stateDB⟩

/-- Scenario record of the spec, used as a concrete test vector. -/
def scenarioFeeConfig : FeeConfig :=
  { gasLimit := 8000000, targetBlockRate := 2, minBaseFee := 25000000000,
    targetGas := 15000000, baseFeeChangeDenominator := 36, minBlockGasCost := 0,
    maxBlockGasCost := 1000000, blockGasCostStep := 200000 }

/-- A state in which every slot of every contract is zero. -/
def zeroState : StateDB := fun _ _ => 0

/-- The zero state with account 5 granted Role Enabled on the fee manager list. -/
def enabledState : StateDB :=
  setState zeroState FeeConfigManagerAddress (allowListSlotKey 5) 1

/-- A fee-config validator that accepts every record. -/
def acceptAll : FeeConfigVerify := fun _ => true

/-- The nine slot keys StoreFeeConfig writes, in write order. -/
def feeConfigAllSlotKeys : List Word :=
  [feeConfigSlotKey gasLimitKey, feeConfigSlotKey targetBlockRateKey,
   feeConfigSlotKey minBaseFeeKey, feeConfigSlotKey targetGasKey,
   feeConfigSlotKey baseFeeChangeDenominatorKey, feeConfigSlotKey minBlockGasCostKey,
   feeConfigSlotKey maxBlockGasCostKey, feeConfigSlotKey blockGasCostStepKey,
   feeConfigLastChangedAtKey]

/-! Byte-string arithmetic: the big-endian encoding and decoding round trips. -/

theorem length_beBytes (k n : Nat) : (beBytes k n).length = k := by
  induction k generalizing n with
  | zero => rfl
  | succ k ih => simp [beBytes, ih]

theorem length_hashBytes (n : Nat) : (hashBytes n).length = 32 := length_beBytes 32 n

theorem bytesToNat_snoc (l : List Nat) (b : Nat) :
    bytesToNat (l ++ [b]) = bytesToNat l * 256 + b := by
  unfold bytesToNat
  rw [List.foldl_append]
  rfl

theorem bytesToNat_beBytes (k n : Nat) : bytesToNat (beBytes k n) = n % 256 ^ k := by
  induction k generalizing n with
  | zero => simp [beBytes, bytesToNat, Nat.mod_one]
  | succ k ih =>
    simp only [beBytes]
    rw [bytesToNat_snoc, ih]
    rw [Nat.pow_succ, Nat.mul_comm (256 ^ k) 256, Nat.mod_mul]
    omega

theorem bytesToNat_hashBytes (n : Nat) : bytesToNat (hashBytes n) = n % 2 ^ 256 := by
  have h : (256 : Nat) ^ 32 = 2 ^ 256 := by norm_num
  rw [hashBytes, bytesToNat_beBytes, h]

theorem beBytes_bytesToNat (l : List Nat) (hb : ∀ b ∈ l, b < 256) :
    beBytes l.length (bytesToNat l) = l := by
  induction l using List.reverseRecOn with
  | nil => rfl
  | append_singleton l b ih =>
    have hb256 : b < 256 := hb b (by simp)
    have hl : ∀ x ∈ l, x < 256 := fun x hx => hb x (by simp [hx])
    rw [bytesToNat_snoc]
    simp only [List.length_append, List.length_cons, List.length_nil, Nat.zero_add]
    simp only [beBytes]
    have h1 : (bytesToNat l * 256 + b) / 256 = bytesToNat l := by
      rw [Nat.mul_comm (bytesToNat l) 256, Nat.mul_add_div (by norm_num)]
      simp [Nat.div_eq_of_lt hb256]
    have h2 : (bytesToNat l * 256 + b) % 256 = b := by
      rw [Nat.mul_comm (bytesToNat l) 256, Nat.mul_add_mod]
      exact Nat.mod_eq_of_lt hb256
    rw [h1, h2, ih hl]

theorem bytesToNat_lt (l : List Nat) (hb : ∀ b ∈ l, b < 256) :
    bytesToNat l < 256 ^ l.length := by
  induction l using List.reverseRecOn with
  | nil => decide
  | append_singleton l b ih =>
    have hb256 : b < 256 := hb b (by simp)
    have hl : ∀ x ∈ l, x < 256 := fun x hx => hb x (by simp [hx])
    have h := ih hl
    rw [bytesToNat_snoc]
    simp only [List.length_append, List.length_cons, List.length_nil, Nat.zero_add]
    rw [Nat.pow_succ]
    omega

theorem hashBytes_bytesToNat (l : List Nat) (hlen : l.length = 32)
    (hb : ∀ b ∈ l, b < 256) : hashBytes (bytesToNat l) = l := by
  rw [hashBytes, ← hlen, beBytes_bytesToNat l hb]

/-! Word extraction from a packed buffer. -/

theorem returnPackedHash_packOrderedHashes (hs : List Word) (j : Nat)
    (hj : j < hs.length) :
    returnPackedHash (packOrderedHashes hs) j = hashBytes (hs.get ⟨j, hj⟩) := by
  induction hs generalizing j with
  | nil => simp at hj
  | cons h t ih =>
    cases j with
    | zero =>
      simp only [packOrderedHashes, List.map_cons, List.flatten_cons, returnPackedHash,
        Nat.mul_zero, List.drop_zero]
      rw [List.take_left' (length_hashBytes h)]
      rfl
    | succ j =>
      have hj2 : j < t.length := by simpa using hj
      have e : 32 * (j + 1) = (hashBytes h).length + 32 * j := by
        rw [length_hashBytes]; ring
      simp only [packOrderedHashes, List.map_cons, List.flatten_cons, returnPackedHash, e]
      rw [List.drop_append]
      simpa [returnPackedHash, packOrderedHashes] using ih j hj2

theorem length_packFeeConfig (c : FeeConfig) : (PackFeeConfig c).length = 256 := by
  simp [PackFeeConfig, packFeeConfigHelper, packOrderedHashes, feeConfigHashes,
    length_hashBytes]

/-! Storage slot key values and distinctness. -/

theorem foldl_replicate_zero (k acc : Nat) :
    List.foldl (fun a b => a * 256 + b) acc (List.replicate k 0) = acc * 256 ^ k := by
  induction k generalizing acc with
  | zero => simp
  | succ k ih =>
    simp only [List.replicate_succ, List.foldl_cons]
    rw [ih]
    ring

theorem feeConfigSlotKey_eq (i : Nat) : feeConfigSlotKey i = i * 256 ^ 31 := by
  unfold feeConfigSlotKey bytesToNat
  simp only [List.foldl_cons]
  rw [foldl_replicate_zero]
  ring

theorem feeConfigLastChangedAtKey_eq :
    feeConfigLastChangedAtKey = 7103329 * 256 ^ 29 := by
  unfold feeConfigLastChangedAtKey bytesToNat
  simp only [List.foldl_cons]
  rw [foldl_replicate_zero]

theorem feeConfigSlotKey_inj (i j : Nat) (h : feeConfigSlotKey i = feeConfigSlotKey j) :
    i = j := by
  rw [feeConfigSlotKey_eq, feeConfigSlotKey_eq] at h
  exact Nat.eq_of_mul_eq_mul_right (by positivity) h

theorem lcaKey_ne_slotKey (i : Nat) : feeConfigLastChangedAtKey ≠ feeConfigSlotKey i := by
  rw [feeConfigLastChangedAtKey_eq, feeConfigSlotKey_eq]
  intro h
  have e : (256 : Nat) ^ 31 = 65536 * 256 ^ 29 := by norm_num
  rw [e, ← Nat.mul_assoc] at h
  have h2 : 7103329 = i * 65536 :=
    Nat.eq_of_mul_eq_mul_right (by positivity) h
  omega

/-! State read and write. -/

theorem getState_setState_same (s : StateDB) (a : Addr) (k v : Word) :
    getState (setState s a k v) a k = v := by
  simp [getState, setState]

theorem getState_setState_other (s : StateDB) (a : Addr) (k v : Word)
    (a2 : Addr) (k2 : Word) (h : ¬(a2 = a ∧ k2 = k)) :
    getState (setState s a k v) a2 k2 = getState s a2 k2 := by
  simp only [getState, setState, if_neg h]

theorem slotKey_ne_of_lt (i j : Nat) (hij : i < j) :
    feeConfigSlotKey i ≠ feeConfigSlotKey j := by
  intro he
  have := feeConfigSlotKey_inj i j he
  omega

theorem slotKey_ne_lcaKey (i : Nat) :
    feeConfigSlotKey i ≠ feeConfigLastChangedAtKey := by
  intro he
  exact lcaKey_ne_slotKey i he.symm

/-- Successful StoreFeeConfig: no error, the eight field slots hold the packed
field words, the last-changed-at slot holds the block number, and every other
(address, key) pair is untouched. -/
theorem StoreFeeConfig_some_spec (v : FeeConfigVerify) (s : StateDB) (c : FeeConfig)
    (n : Nat) (hv : v c = true) :
    (StoreFeeConfig v s c (some n)).2 = none ∧
    getState (StoreFeeConfig v s c (some n)).1 FeeConfigManagerAddress
      (feeConfigSlotKey gasLimitKey) = bigToHash c.gasLimit ∧
    getState (StoreFeeConfig v s c (some n)).1 FeeConfigManagerAddress
      (feeConfigSlotKey targetBlockRateKey) = bigToHash (c.targetBlockRate % 2 ^ 64) ∧
    getState (StoreFeeConfig v s c (some n)).1 FeeConfigManagerAddress
      (feeConfigSlotKey minBaseFeeKey) = bigToHash c.minBaseFee ∧
    getState (StoreFeeConfig v s c (some n)).1 FeeConfigManagerAddress
      (feeConfigSlotKey targetGasKey) = bigToHash c.targetGas ∧
    getState (StoreFeeConfig v s c (some n)).1 FeeConfigManagerAddress
      (feeConfigSlotKey baseFeeChangeDenominatorKey) = bigToHash c.baseFeeChangeDenominator ∧
    getState (StoreFeeConfig v s c (some n)).1 FeeConfigManagerAddress
      (feeConfigSlotKey minBlockGasCostKey) = bigToHash c.minBlockGasCost ∧
    getState (StoreFeeConfig v s c (some n)).1 FeeConfigManagerAddress
      (feeConfigSlotKey maxBlockGasCostKey) = bigToHash c.maxBlockGasCost ∧
    getState (StoreFeeConfig v s c (some n)).1 FeeConfigManagerAddress
      (feeConfigSlotKey blockGasCostStepKey) = bigToHash c.blockGasCostStep ∧
    getState (StoreFeeConfig v s c (some n)).1 FeeConfigManagerAddress
      feeConfigLastChangedAtKey = bigToHash n ∧
    ∀ a k, (a ≠ FeeConfigManagerAddress ∨ k ∉ feeConfigAllSlotKeys) →
      getState (StoreFeeConfig v s c (some n)).1 a k = getState s a k := by
  have hne1 : ∀ i j : Nat, i < j → feeConfigSlotKey i ≠ feeConfigSlotKey j :=
    slotKey_ne_of_lt
  have hne2 : ∀ i : Nat, feeConfigSlotKey i ≠ feeConfigLastChangedAtKey :=
    slotKey_ne_lcaKey
  refine ⟨?_, ?_, ?_, ?_, ?_, ?_, ?_, ?_, ?_, ?_, ?_⟩
  · simp [StoreFeeConfig, hv]
  · simp [StoreFeeConfig, hv, getState, setState, gasLimitKey, targetBlockRateKey,
      minBaseFeeKey, targetGasKey, baseFeeChangeDenominatorKey, minBlockGasCostKey,
      maxBlockGasCostKey, blockGasCostStepKey, hne1, hne2]
  · simp [StoreFeeConfig, hv, getState, setState, gasLimitKey, targetBlockRateKey,
      minBaseFeeKey, targetGasKey, baseFeeChangeDenominatorKey, minBlockGasCostKey,
      maxBlockGasCostKey, blockGasCostStepKey, hne1, hne2]
  · simp [StoreFeeConfig, hv, getState, setState, gasLimitKey, targetBlockRateKey,
      minBaseFeeKey, targetGasKey, baseFeeChangeDenominatorKey, minBlockGasCostKey,
      maxBlockGasCostKey, blockGasCostStepKey, hne1, hne2]
  · simp [StoreFeeConfig, hv, getState, setState, gasLimitKey, targetBlockRateKey,
      minBaseFeeKey, targetGasKey, baseFeeChangeDenominatorKey, minBlockGasCostKey,
      maxBlockGasCostKey, blockGasCostStepKey, hne1, hne2]
  · simp [StoreFeeConfig, hv, getState, setState, gasLimitKey, targetBlockRateKey,
      minBaseFeeKey, targetGasKey, baseFeeChangeDenominatorKey, minBlockGasCostKey,
      maxBlockGasCostKey, blockGasCostStepKey, hne1, hne2]
  · simp [StoreFeeConfig, hv, getState, setState, gasLimitKey, targetBlockRateKey,
      minBaseFeeKey, targetGasKey, baseFeeChangeDenominatorKey, minBlockGasCostKey,
      maxBlockGasCostKey, blockGasCostStepKey, hne1, hne2]
  · simp [StoreFeeConfig, hv, getState, setState, gasLimitKey, targetBlockRateKey,
      minBaseFeeKey, targetGasKey, baseFeeChangeDenominatorKey, minBlockGasCostKey,
      maxBlockGasCostKey, blockGasCostStepKey, hne1, hne2]
  · simp [StoreFeeConfig, hv, getState, setState, gasLimitKey, targetBlockRateKey,
      minBaseFeeKey, targetGasKey, baseFeeChangeDenominatorKey, minBlockGasCostKey,
      maxBlockGasCostKey, blockGasCostStepKey, hne1, hne2]
  · simp [StoreFeeConfig, hv, getState, setState]
  · intro a k hak
    rcases hak with ha | hk
    · simp [StoreFeeConfig, hv, getState, setState, ha]
    · simp only [feeConfigAllSlotKeys, List.mem_cons, List.not_mem_nil, or_false,
        not_or] at hk
      obtain ⟨n1, n2, n3, n4, n5, n6, n7, n8, n9⟩ := hk
      simp [StoreFeeConfig, hv, getState, setState, n1, n2, n3, n4, n5, n6, n7, n8, n9]

/-! Unpacking a well-sized input, and reassembling an input from its words. -/

theorem UnpackFeeConfigInput_of_length (input : List Nat) (h : input.length = 256) :
    UnpackFeeConfigInput input =
      ({ gasLimit := bytesToNat (returnPackedHash input 0),
         targetBlockRate := bytesToNat (returnPackedHash input 1) % 2 ^ 64,
         minBaseFee := bytesToNat (returnPackedHash input 2),
         targetGas := bytesToNat (returnPackedHash input 3),
         baseFeeChangeDenominator := bytesToNat (returnPackedHash input 4),
         minBlockGasCost := bytesToNat (returnPackedHash input 5),
         maxBlockGasCost := bytesToNat (returnPackedHash input 6),
         blockGasCostStep := bytesToNat (returnPackedHash input 7) }, none) := by
  rw [UnpackFeeConfigInput, if_neg]
  simp [h, feeConfigInputLen, numFeeConfigField]

theorem length_returnPackedHash (input : List Nat) (j : Nat)
    (h : 32 * j + 32 ≤ input.length) : (returnPackedHash input j).length = 32 := by
  simp only [returnPackedHash, List.length_take, List.length_drop]
  omega

theorem mem_returnPackedHash_lt (input : List Nat) (j : Nat)
    (hb : ∀ b ∈ input, b < 256) : ∀ b ∈ returnPackedHash input j, b < 256 := by
  intro b hbm
  exact hb b (List.mem_of_mem_drop (List.mem_of_mem_take hbm))

theorem bytesToNat_returnPackedHash_lt (input : List Nat) (j : Nat)
    (hlen : 32 * j + 32 ≤ input.length) (hb : ∀ b ∈ input, b < 256) :
    bytesToNat (returnPackedHash input j) < 2 ^ 256 := by
  have h1 := bytesToNat_lt (returnPackedHash input j) (mem_returnPackedHash_lt input j hb)
  rw [length_returnPackedHash input j hlen] at h1
  have h2 : (256 : Nat) ^ 32 = 2 ^ 256 := by norm_num
  rw [h2] at h1
  exact h1

theorem flatten_chunks : ∀ (k : Nat) (l : List Nat), l.length = 32 * k →
    ((List.range k).map (returnPackedHash l)).flatten = l := by
  intro k
  induction k with
  | zero =>
    intro l h
    cases l with
    | nil => rfl
    | cons a t => simp at h
  | succ k ih =>
    intro l h
    rw [List.range_succ_eq_map]
    simp only [List.map_cons, List.map_map, List.flatten_cons]
    have hcomp : (List.range k).map (returnPackedHash l ∘ Nat.succ) =
        (List.range k).map (returnPackedHash (l.drop 32)) := by
      apply List.map_congr_left
      intro j _
      simp only [Function.comp_apply, returnPackedHash, List.drop_drop]
      have e : 32 * Nat.succ j = 32 + 32 * j := by omega
      rw [e]
    rw [hcomp, ih (l.drop 32) (by simp only [List.length_drop]; omega)]
    have h0 : returnPackedHash l 0 = l.take 32 := by
      simp [returnPackedHash]
    rw [h0, List.take_append_drop]

/-! Gas deduction facts. -/

theorem deductGas_le (g c : Nat) : (deductGas g c).1 ≤ g := by
  unfold deductGas
  split
  · simp
  · simp

theorem deductGas_of_le (g c : Nat) (h : c ≤ g) : deductGas g c = (g - c, none) := by
  unfold deductGas
  rw [if_neg (Nat.not_lt.mpr h)]

theorem deductGas_of_lt (g c : Nat) (h : g < c) : deductGas g c = (0, some .outOfGas) := by
  unfold deductGas
  rw [if_pos h]

theorem deductGas_none (g c rg : Nat) (h : deductGas g c = (rg, none)) :
    c ≤ g ∧ rg = g - c := by
  unfold deductGas at h
  split at h
  · simp at h
  · rename_i hnl
    simp only [Prod.mk.injEq] at h
    exact ⟨Nat.not_lt.mp hnl, h.1.symm⟩

/-! Reading back a stored config. -/

theorem GetStoredFeeConfig_StoreFeeConfig (v : FeeConfigVerify) (s : StateDB)
    (c : FeeConfig) (n : Nat) (hv : v c = true) :
    GetStoredFeeConfig (StoreFeeConfig v s c (some n)).1 =
      { gasLimit := bigToHash c.gasLimit,
        targetBlockRate := bigToHash (c.targetBlockRate % 2 ^ 64) % 2 ^ 64,
        minBaseFee := bigToHash c.minBaseFee,
        targetGas := bigToHash c.targetGas,
        baseFeeChangeDenominator := bigToHash c.baseFeeChangeDenominator,
        minBlockGasCost := bigToHash c.minBlockGasCost,
        maxBlockGasCost := bigToHash c.maxBlockGasCost,
        blockGasCostStep := bigToHash c.blockGasCostStep } := by
  obtain ⟨-, h1, h2, h3, h4, h5, h6, h7, h8, -, -⟩ := StoreFeeConfig_some_spec v s c n hv
  simp [GetStoredFeeConfig, h1, h2, h3, h4, h5, h6, h7, h8]

theorem GetFeeConfigLastChangedAt_StoreFeeConfig (v : FeeConfigVerify) (s : StateDB)
    (c : FeeConfig) (n : Nat) (hv : v c = true) :
    GetFeeConfigLastChangedAt (StoreFeeConfig v s c (some n)).1 = bigToHash n := by
  obtain ⟨-, -, -, -, -, -, -, -, -, h9, -⟩ := StoreFeeConfig_some_spec v s c n hv
  simpa [GetFeeConfigLastChangedAt] using h9

/-! The shape of setFeeConfig on its success path and its gas behaviour. -/

theorem setFeeConfig_success (w : Nat) (v : FeeConfigVerify) (s : StateDB) (n : Nat)
    (caller addr : Addr) (input : List Nat) (g : Nat) (u : FeeConfig)
    (hg : SetFeeConfigGasCost w ≤ g)
    (hu : UnpackFeeConfigInput input = (u, none))
    (hrole : (getAllowListStatus s FeeConfigManagerAddress caller).IsEnabled = true)
    (hv : v u = true) :
    setFeeConfig w v s (some n) caller addr input g false =
      ⟨some [], g - SetFeeConfigGasCost w, none, (StoreFeeConfig v s u (some n)).1⟩ := by
  rcases hst : StoreFeeConfig v s u (some n) with ⟨s2, e2⟩
  have he2 : e2 = none := by
    have h := (StoreFeeConfig_some_spec v s u n hv).1
    rw [hst] at h
    exact h
  subst he2
  simp [setFeeConfig, deductGas, Nat.not_lt.mpr hg, hu, hrole, hst]

theorem setFeeConfig_remainingGas_le (w : Nat) (v : FeeConfigVerify) (s : StateDB)
    (bc : BlockContext) (caller addr : Addr) (input : List Nat) (g : Nat) (ro : Bool) :
    (setFeeConfig w v s bc caller addr input g ro).remainingGas ≤ g := by
  rcases hd : deductGas g (SetFeeConfigGasCost w) with ⟨rg, e⟩
  have hrg : rg ≤ g := by
    have h := deductGas_le g (SetFeeConfigGasCost w)
    rwa [hd] at h
  cases e with
  | some e => simp [setFeeConfig, hd]
  | none =>
    simp only [setFeeConfig, hd]
    split
    · simpa using hrg
    · split
      · simpa using hrg
      · split
        · simpa using hrg
        · split
          · simpa using hrg
          · simpa using hrg

theorem setFeeConfig_remainingGas_of_err_none (w : Nat) (v : FeeConfigVerify)
    (s : StateDB) (bc : BlockContext) (caller addr : Addr) (input : List Nat)
    (g : Nat) (ro : Bool)
    (h : (setFeeConfig w v s bc caller addr input g ro).err = none) :
    (setFeeConfig w v s bc caller addr input g ro).remainingGas =
      g - SetFeeConfigGasCost w := by
  rcases hd : deductGas g (SetFeeConfigGasCost w) with ⟨rg, e⟩
  cases e with
  | some e => simp [setFeeConfig, hd] at h
  | none =>
    have hrg : rg = g - SetFeeConfigGasCost w :=
      (deductGas_none g (SetFeeConfigGasCost w) rg hd).2
    simp only [setFeeConfig, hd] at h ⊢
    cases ro with
    | true => simp at h
    | false =>
      simp only [Bool.false_eq_true, if_false] at h ⊢
      rcases hu : UnpackFeeConfigInput input with ⟨u, eo⟩
      simp only [hu] at h ⊢
      cases eo with
      | some e => simp at h
      | none =>
        cases hro : (getAllowListStatus s FeeConfigManagerAddress caller).IsEnabled with
        | false => simp [hro] at h
        | true =>
          simp only [hro, Bool.true_eq_false, if_false] at h ⊢
          rcases hst : StoreFeeConfig v s u bc with ⟨s2, e2⟩
          simp only [hst] at h ⊢
          cases e2 with
          | some e => simp at h
          | none => simpa using hrg

theorem setFeeConfig_outOfGas (w : Nat) (v : FeeConfigVerify) (s : StateDB)
    (bc : BlockContext) (caller addr : Addr) (input : List Nat) (g : Nat) (ro : Bool)
    (h : g < SetFeeConfigGasCost w) :
    setFeeConfig w v s bc caller addr input g ro =
      ⟨none, 0, some .outOfGas, s⟩ := by
  simp [setFeeConfig, deductGas_of_lt g (SetFeeConfigGasCost w) h]

theorem getFeeConfig_remainingGas_le (r : Nat) (s : StateDB) (caller addr : Addr)
    (input : List Nat) (g : Nat) (ro : Bool) :
    (getFeeConfig r s caller addr input g ro).remainingGas ≤ g := by
  rcases hd : deductGas g (GetFeeConfigGasCost r) with ⟨rg, e⟩
  have hrg : rg ≤ g := by
    have h := deductGas_le g (GetFeeConfigGasCost r)
    rwa [hd] at h
  cases e with
  | some e => simp [getFeeConfig, hd]
  | none => simpa [getFeeConfig, hd] using hrg

theorem getFeeConfigLastChangedAt_remainingGas_le (r : Nat) (s : StateDB)
    (caller addr : Addr) (input : List Nat) (g : Nat) (ro : Bool) :
    (getFeeConfigLastChangedAt r s caller addr input g ro).remainingGas ≤ g := by
  rcases hd : deductGas g (GetLastChangedAtGasCost r) with ⟨rg, e⟩
  have hrg : rg ≤ g := by
    have h := deductGas_le g (GetLastChangedAtGasCost r)
    rwa [hd] at h
  cases e with
  | some e => simp [getFeeConfigLastChangedAt, hd]
  | none => simpa [getFeeConfigLastChangedAt, hd] using hrg

theorem UnpackFeeConfigInput_of_length_ne (input : List Nat) (h : input.length ≠ 256) :
    UnpackFeeConfigInput input =
      (emptyFeeConfig, some (.invalidFeeConfigInputLen input.length)) := by
  rw [UnpackFeeConfigInput, if_pos]
  simp [feeConfigInputLen, numFeeConfigField, h]

theorem StoreFeeConfig_err (v : FeeConfigVerify) (s : StateDB) (c : FeeConfig)
    (bc : BlockContext) (s2 : StateDB) (e2 : PrecompileErr)
    (h : StoreFeeConfig v s c bc = (s2, some e2)) :
    (e2 = .invalidFeeConfig ∧ s2 = s) ∨ e2 = .blockNumberNil := by
  unfold StoreFeeConfig at h
  split at h
  · simp only [Prod.mk.injEq, Option.some.injEq] at h
    exact Or.inl ⟨h.2.symm, h.1.symm⟩
  · cases bc with
    | none =>
      simp only [Prod.mk.injEq, Option.some.injEq] at h
      exact Or.inr h.2.symm
    | some n => simp at h

theorem returnPackedHash_eight (w1 w2 w3 w4 w5 w6 w7 w8 : Word) :
    returnPackedHash (packOrderedHashes [w1, w2, w3, w4, w5, w6, w7, w8]) 0 = hashBytes w1 ∧
    returnPackedHash (packOrderedHashes [w1, w2, w3, w4, w5, w6, w7, w8]) 1 = hashBytes w2 ∧
    returnPackedHash (packOrderedHashes [w1, w2, w3, w4, w5, w6, w7, w8]) 2 = hashBytes w3 ∧
    returnPackedHash (packOrderedHashes [w1, w2, w3, w4, w5, w6, w7, w8]) 3 = hashBytes w4 ∧
    returnPackedHash (packOrderedHashes [w1, w2, w3, w4, w5, w6, w7, w8]) 4 = hashBytes w5 ∧
    returnPackedHash (packOrderedHashes [w1, w2, w3, w4, w5, w6, w7, w8]) 5 = hashBytes w6 ∧
    returnPackedHash (packOrderedHashes [w1, w2, w3, w4, w5, w6, w7, w8]) 6 = hashBytes w7 ∧
    returnPackedHash (packOrderedHashes [w1, w2, w3, w4, w5, w6, w7, w8]) 7 = hashBytes w8 := by
  refine ⟨?_, ?_, ?_, ?_, ?_, ?_, ?_, ?_⟩
  · simpa using returnPackedHash_packOrderedHashes [w1, w2, w3, w4, w5, w6, w7, w8] 0 (by simp)
  · simpa using returnPackedHash_packOrderedHashes [w1, w2, w3, w4, w5, w6, w7, w8] 1 (by simp)
  · simpa using returnPackedHash_packOrderedHashes [w1, w2, w3, w4, w5, w6, w7, w8] 2 (by simp)
  · simpa using returnPackedHash_packOrderedHashes [w1, w2, w3, w4, w5, w6, w7, w8] 3 (by simp)
  · simpa using returnPackedHash_packOrderedHashes [w1, w2, w3, w4, w5, w6, w7, w8] 4 (by simp)
  · simpa using returnPackedHash_packOrderedHashes [w1, w2, w3, w4, w5, w6, w7, w8] 5 (by simp)
  · simpa using returnPackedHash_packOrderedHashes [w1, w2, w3, w4, w5, w6, w7, w8] 6 (by simp)
  · simpa using returnPackedHash_packOrderedHashes [w1, w2, w3, w4, w5, w6, w7, w8] 7 (by simp)

/-- Packing then unpacking reduces every field modulo its width. -/
theorem unpack_pack (c : FeeConfig) :
    UnpackFeeConfigInput (PackFeeConfig c) =
      ({ gasLimit := c.gasLimit % 2 ^ 256,
         targetBlockRate := c.targetBlockRate % 2 ^ 64,
         minBaseFee := c.minBaseFee % 2 ^ 256,
         targetGas := c.targetGas % 2 ^ 256,
         baseFeeChangeDenominator := c.baseFeeChangeDenominator % 2 ^ 256,
         minBlockGasCost := c.minBlockGasCost % 2 ^ 256,
         maxBlockGasCost := c.maxBlockGasCost % 2 ^ 256,
         blockGasCostStep := c.blockGasCostStep % 2 ^ 256 }, none) := by
  rw [UnpackFeeConfigInput_of_length _ (length_packFeeConfig c)]
  obtain ⟨e1, e2, e3, e4, e5, e6, e7, e8⟩ :=
    returnPackedHash_eight (bigToHash c.gasLimit) (bigToHash (c.targetBlockRate % 2 ^ 64))
      (bigToHash c.minBaseFee) (bigToHash c.targetGas)
      (bigToHash c.baseFeeChangeDenominator) (bigToHash c.minBlockGasCost)
      (bigToHash c.maxBlockGasCost) (bigToHash c.blockGasCostStep)
  have hp : PackFeeConfig c = packOrderedHashes
      [bigToHash c.gasLimit, bigToHash (c.targetBlockRate % 2 ^ 64), bigToHash c.minBaseFee,
       bigToHash c.targetGas, bigToHash c.baseFeeChangeDenominator, bigToHash c.minBlockGasCost,
       bigToHash c.maxBlockGasCost, bigToHash c.blockGasCostStep] := rfl
  rw [hp, e1, e2, e3, e4, e5, e6, e7, e8]
  simp only [bytesToNat_hashBytes, bigToHash, Prod.mk.injEq, FeeConfig.mk.injEq]
  refine ⟨⟨?_, ?_, ?_, ?_, ?_, ?_, ?_, ?_⟩, trivial⟩ <;> omega

/-- A well-formed 256-byte input survives unpack, store, read-back and repack
unchanged: the packed form of the stored config is the original input. -/
theorem pack_getstored_eq_input (input : List Nat) (hlen : input.length = 256)
    (hb : ∀ b ∈ input, b < 256)
    (htbr : bytesToNat (returnPackedHash input 1) < 2 ^ 64)
    (v : FeeConfigVerify) (s : StateDB) (n : Nat)
    (hv : v (UnpackFeeConfigInput input).1 = true) :
    PackFeeConfig (GetStoredFeeConfig
      (StoreFeeConfig v s (UnpackFeeConfigInput input).1 (some n)).1) = input := by
  have hb0 := bytesToNat_returnPackedHash_lt input 0 (by omega) hb
  have hb2 := bytesToNat_returnPackedHash_lt input 2 (by omega) hb
  have hb3 := bytesToNat_returnPackedHash_lt input 3 (by omega) hb
  have hb4 := bytesToNat_returnPackedHash_lt input 4 (by omega) hb
  have hb5 := bytesToNat_returnPackedHash_lt input 5 (by omega) hb
  have hb6 := bytesToNat_returnPackedHash_lt input 6 (by omega) hb
  have hb7 := bytesToNat_returnPackedHash_lt input 7 (by omega) hb
  have hrec : (UnpackFeeConfigInput input).1 =
      { gasLimit := bytesToNat (returnPackedHash input 0),
        targetBlockRate := bytesToNat (returnPackedHash input 1) % 2 ^ 64,
        minBaseFee := bytesToNat (returnPackedHash input 2),
        targetGas := bytesToNat (returnPackedHash input 3),
        baseFeeChangeDenominator := bytesToNat (returnPackedHash input 4),
        minBlockGasCost := bytesToNat (returnPackedHash input 5),
        maxBlockGasCost := bytesToNat (returnPackedHash input 6),
        blockGasCostStep := bytesToNat (returnPackedHash input 7) } := by
    rw [UnpackFeeConfigInput_of_length input hlen]
  have hm : GetStoredFeeConfig
      (StoreFeeConfig v s (UnpackFeeConfigInput input).1 (some n)).1 =
      (UnpackFeeConfigInput input).1 := by
    rw [GetStoredFeeConfig_StoreFeeConfig v s _ n hv, hrec]
    simp only [FeeConfig.mk.injEq, bigToHash]
    refine ⟨?_, ?_, ?_, ?_, ?_, ?_, ?_, ?_⟩ <;> omega
  rw [hm, hrec]
  simp only [PackFeeConfig, packFeeConfigHelper, feeConfigHashes]
  have e0 : bigToHash (bytesToNat (returnPackedHash input 0)) =
      bytesToNat (returnPackedHash input 0) := Nat.mod_eq_of_lt hb0
  have e1 : bigToHash (bytesToNat (returnPackedHash input 1) % 2 ^ 64 % 2 ^ 64) =
      bytesToNat (returnPackedHash input 1) := by
    rw [Nat.mod_eq_of_lt htbr, Nat.mod_eq_of_lt htbr]
    exact Nat.mod_eq_of_lt (htbr.trans (by norm_num))
  have e2 : bigToHash (bytesToNat (returnPackedHash input 2)) =
      bytesToNat (returnPackedHash input 2) := Nat.mod_eq_of_lt hb2
  have e3 : bigToHash (bytesToNat (returnPackedHash input 3)) =
      bytesToNat (returnPackedHash input 3) := Nat.mod_eq_of_lt hb3
  have e4 : bigToHash (bytesToNat (returnPackedHash input 4)) =
      bytesToNat (returnPackedHash input 4) := Nat.mod_eq_of_lt hb4
  have e5 : bigToHash (bytesToNat (returnPackedHash input 5)) =
      bytesToNat (returnPackedHash input 5) := Nat.mod_eq_of_lt hb5
  have e6 : bigToHash (bytesToNat (returnPackedHash input 6)) =
      bytesToNat (returnPackedHash input 6) := Nat.mod_eq_of_lt hb6
  have e7 : bigToHash (bytesToNat (returnPackedHash input 7)) =
      bytesToNat (returnPackedHash input 7) := Nat.mod_eq_of_lt hb7
  rw [e0, e1, e2, e3, e4, e5, e6, e7]
  simp only [packOrderedHashes, List.map_cons, List.map_nil]
  rw [hashBytes_bytesToNat _ (length_returnPackedHash input 0 (by omega))
      (mem_returnPackedHash_lt input 0 hb),
    hashBytes_bytesToNat _ (length_returnPackedHash input 1 (by omega))
      (mem_returnPackedHash_lt input 1 hb),
    hashBytes_bytesToNat _ (length_returnPackedHash input 2 (by omega))
      (mem_returnPackedHash_lt input 2 hb),
    hashBytes_bytesToNat _ (length_returnPackedHash input 3 (by omega))
      (mem_returnPackedHash_lt input 3 hb),
    hashBytes_bytesToNat _ (length_returnPackedHash input 4 (by omega))
      (mem_returnPackedHash_lt input 4 hb),
    hashBytes_bytesToNat _ (length_returnPackedHash input 5 (by omega))
      (mem_returnPackedHash_lt input 5 hb),
    hashBytes_bytesToNat _ (length_returnPackedHash input 6 (by omega))
      (mem_returnPackedHash_lt input 6 hb),
    hashBytes_bytesToNat _ (length_returnPackedHash input 7 (by omega))
      (mem_returnPackedHash_lt input 7 hb)]
  have hchunks := flatten_chunks 8 input (by omega)
  have hrange : (List.range 8).map (returnPackedHash input) =
      [returnPackedHash input 0, returnPackedHash input 1, returnPackedHash input 2,
       returnPackedHash input 3, returnPackedHash input 4, returnPackedHash input 5,
       returnPackedHash input 6, returnPackedHash input 7] := rfl
  rw [hrange] at hchunks
  exact hchunks

/-! Claim theorems. -/

/-- C6: calling setFeeConfig with readOnly = true and sufficient supplied gas
fails with the write-protection error after gas deduction — the remaining gas
is the supplied gas minus the fixed cost — and the state, in particular every
fee-config slot and the last-changed-at slot, is unchanged. -/
theorem C6_write_protection (w : Nat) (v : FeeConfigVerify) (s : StateDB)
    (bc : BlockContext) (caller addr : Addr) (input : List Nat) (g : Nat)
    (hg : SetFeeConfigGasCost w ≤ g) :
    setFeeConfig w v s bc caller addr input g true =
      ⟨none, g - SetFeeConfigGasCost w, some .writeProtection, s⟩ := by
  simp [setFeeConfig, deductGas, Nat.not_lt.mpr hg]

/-- Witness for C6 at concrete arguments. -/
theorem C6_write_protection_witness :
    SetFeeConfigGasCost 1 ≤ 10 ∧
    setFeeConfig 1 acceptAll zeroState none 5 7 [] 10 true =
      ⟨none, 10 - SetFeeConfigGasCost 1, some .writeProtection, zeroState⟩ :=
  ⟨by decide, C6_write_protection 1 acceptAll zeroState none 5 7 [] 10 (by decide)⟩

/-- C7: gas accounting of the three handlers: the remaining gas never exceeds
the supplied gas; the fixed costs are writeGasCostPerSlot * (8 + 1) for
setFeeConfig, readGasCostPerSlot * 8 for getFeeConfig and one
readGasCostPerSlot for getFeeConfigLastChangedAt; when no error is returned
the remaining gas is exactly the supplied gas minus the cost; and when the
supplied gas is below the cost the handler fails with the out-of-gas error and
zero remaining gas. -/
theorem C7_gas_accounting (w r : Nat) (v : FeeConfigVerify) (s : StateDB)
    (bc : BlockContext) (caller addr : Addr) (input : List Nat) (g : Nat) (ro : Bool) :
    SetFeeConfigGasCost w = w * (8 + 1) ∧
    GetFeeConfigGasCost r = r * 8 ∧
    GetLastChangedAtGasCost r = r ∧
    (setFeeConfig w v s bc caller addr input g ro).remainingGas ≤ g ∧
    (getFeeConfig r s caller addr input g ro).remainingGas ≤ g ∧
    (getFeeConfigLastChangedAt r s caller addr input g ro).remainingGas ≤ g ∧
    ((setFeeConfig w v s bc caller addr input g ro).err = none →
      (setFeeConfig w v s bc caller addr input g ro).remainingGas =
        g - SetFeeConfigGasCost w) ∧
    ((getFeeConfig r s caller addr input g ro).err = none →
      (getFeeConfig r s caller addr input g ro).remainingGas =
        g - GetFeeConfigGasCost r) ∧
    ((getFeeConfigLastChangedAt r s caller addr input g ro).err = none →
      (getFeeConfigLastChangedAt r s caller addr input g ro).remainingGas =
        g - GetLastChangedAtGasCost r) ∧
    (g < SetFeeConfigGasCost w →
      (setFeeConfig w v s bc caller addr input g ro).err = some .outOfGas ∧
      (setFeeConfig w v s bc caller addr input g ro).remainingGas = 0) ∧
    (g < GetFeeConfigGasCost r →
      (getFeeConfig r s caller addr input g ro).err = some .outOfGas ∧
      (getFeeConfig r s caller addr input g ro).remainingGas = 0) ∧
    (g < GetLastChangedAtGasCost r →
      (getFeeConfigLastChangedAt r s caller addr input g ro).err = some .outOfGas ∧
      (getFeeConfigLastChangedAt r s caller addr input g ro).remainingGas = 0) := by
  refine ⟨?_, ?_, ?_, ?_, ?_, ?_, ?_, ?_, ?_, ?_, ?_, ?_⟩
  · simp [SetFeeConfigGasCost, numFeeConfigField]
  · simp [GetFeeConfigGasCost, numFeeConfigField]
  · simp [GetLastChangedAtGasCost]
  · exact setFeeConfig_remainingGas_le w v s bc caller addr input g ro
  · exact getFeeConfig_remainingGas_le r s caller addr input g ro
  · exact getFeeConfigLastChangedAt_remainingGas_le r s caller addr input g ro
  · exact setFeeConfig_remainingGas_of_err_none w v s bc caller addr input g ro
  · intro h
    rcases hd : deductGas g (GetFeeConfigGasCost r) with ⟨rg, e⟩
    cases e with
    | some e => simp [getFeeConfig, hd] at h
    | none =>
      have hrg := (deductGas_none g (GetFeeConfigGasCost r) rg hd).2
      simpa [getFeeConfig, hd] using hrg
  · intro h
    rcases hd : deductGas g (GetLastChangedAtGasCost r) with ⟨rg, e⟩
    cases e with
    | some e => simp [getFeeConfigLastChangedAt, hd] at h
    | none =>
      have hrg := (deductGas_none g (GetLastChangedAtGasCost r) rg hd).2
      simpa [getFeeConfigLastChangedAt, hd] using hrg
  · intro h
    simp [setFeeConfig, deductGas_of_lt g (SetFeeConfigGasCost w) h]
  · intro h
    simp [getFeeConfig, deductGas_of_lt g (GetFeeConfigGasCost r) h]
  · intro h
    simp [getFeeConfigLastChangedAt, deductGas_of_lt g (GetLastChangedAtGasCost r) h]

/-- Witness for C7: one of its consequences evaluated at concrete arguments. -/
theorem C7_gas_accounting_witness :
    (setFeeConfig 1 acceptAll zeroState none 5 7 [] 100 false).remainingGas ≤ 100 ∧
    (0 < SetFeeConfigGasCost 1 →
      (setFeeConfig 1 acceptAll zeroState none 5 7 [] 0 false).err =
        some .outOfGas ∧
      (setFeeConfig 1 acceptAll zeroState none 5 7 [] 0 false).remainingGas = 0) :=
  ⟨(C7_gas_accounting 1 1 acceptAll zeroState none 5 7 [] 100 false).2.2.2.1,
   (C7_gas_accounting 1 1 acceptAll zeroState none 5 7 [] 0 false).2.2.2.2.2.2.2.2.2.1⟩

/-- C8: UnpackFeeConfigInput fails on every input whose byte length differs
from 8 * 32 = 256 bytes, and on that failure returns the empty record, never a
partially populated one, alongside the invalid-length error. -/
theorem C8_length_guard (input : List Nat) (h : input.length ≠ 256) :
    UnpackFeeConfigInput input =
      (emptyFeeConfig, some (.invalidFeeConfigInputLen input.length)) :=
  UnpackFeeConfigInput_of_length_ne input h

/-- Witness for C8 at a three-byte input. -/
theorem C8_length_guard_witness :
    ([1, 2, 3] : List Nat).length ≠ 256 ∧
    UnpackFeeConfigInput [1, 2, 3] =
      (emptyFeeConfig, some (.invalidFeeConfigInputLen 3)) :=
  ⟨by decide, C8_length_guard [1, 2, 3] (by decide)⟩

/-- C10: the getters write nothing: for every caller, input, supplied gas and
read-only flag, the post state of getFeeConfig and of
getFeeConfigLastChangedAt is exactly the state they were called in, so every
slot of every contract holds the same value after the call as before. -/
theorem C10_getters_frame (r : Nat) (s : StateDB) (caller addr : Addr)
    (input : List Nat) (g : Nat) (ro : Bool) :
    (getFeeConfig r s caller addr input g ro).state = s ∧
    (getFeeConfigLastChangedAt r s caller addr input g ro).state = s := by
  constructor
  · rw [getFeeConfig]
    rcases h : deductGas g (GetFeeConfigGasCost r) with ⟨rg, e⟩
    cases e <;> simp [h]
  · rw [getFeeConfigLastChangedAt]
    rcases h : deductGas g (GetLastChangedAtGasCost r) with ⟨rg, e⟩
    cases e <;> simp [h]

/-- C1 counterexample: with an enabled caller, a validator that accepts the
record, a well-formed 256-byte input whose gasLimit word is 1, sufficient gas,
readOnly = false and an absent block number, setFeeConfig returns the
missing-block-number error, yet the gasLimit slot now holds 1 while it held 0
before the call: a partial write survived the error. -/
theorem C1_counterexample :
    (setFeeConfig 1 acceptAll enabledState none 5 7
        (hashBytes 1 ++ List.replicate 224 0) 9 false).err = some .blockNumberNil ∧
    (setFeeConfig 1 acceptAll enabledState none 5 7
        (hashBytes 1 ++ List.replicate 224 0) 9 false).state
      FeeConfigManagerAddress (feeConfigSlotKey gasLimitKey) = 1 ∧
    enabledState FeeConfigManagerAddress (feeConfigSlotKey gasLimitKey) = 0 := by
  decide

/-- C1 (amended): whenever setFeeConfig returns an error other than the
missing-block-number error — insufficient gas, write protection, malformed
input, unauthorized caller or fee-config validation failure — the state is
exactly as it was before the call; on the missing-block-number error the eight
field slots have already been rewritten and only the last-changed-at slot is
untouched. -/
theorem C1_atomic_failure_amended (w : Nat) (v : FeeConfigVerify) (s : StateDB)
    (bc : BlockContext) (caller addr : Addr) (input : List Nat) (g : Nat) (ro : Bool)
    (e : PrecompileErr)
    (he : (setFeeConfig w v s bc caller addr input g ro).err = some e)
    (hne : e ≠ .blockNumberNil) :
    (setFeeConfig w v s bc caller addr input g ro).state = s := by
  rcases hd : deductGas g (SetFeeConfigGasCost w) with ⟨rg, eo⟩
  cases eo with
  | some e2 => simp [setFeeConfig, hd]
  | none =>
    simp only [setFeeConfig, hd] at he ⊢
    cases ro with
    | true => rfl
    | false =>
      simp only [Bool.false_eq_true, if_false] at he ⊢
      rcases hu : UnpackFeeConfigInput input with ⟨u, eo2⟩
      simp only [hu] at he ⊢
      cases eo2 with
      | some e2 => rfl
      | none =>
        cases hro : (getAllowListStatus s FeeConfigManagerAddress caller).IsEnabled with
        | false => simp [hro]
        | true =>
          simp only [hro, Bool.true_eq_false, if_false] at he ⊢
          rcases hst : StoreFeeConfig v s u bc with ⟨s2, e2⟩
          simp only [hst] at he ⊢
          cases e2 with
          | none => simp at he
          | some e3 =>
            simp only [Option.some.injEq] at he
            subst he
            rcases StoreFeeConfig_err v s u bc s2 e3 hst with ⟨-, hs⟩ | hbn
            · simpa using hs
            · exact absurd hbn hne

/-- Witness for C1 (amended) on the write-protection error path. -/
theorem C1_atomic_failure_amended_witness :
    (setFeeConfig 1 acceptAll zeroState none 5 7 [] 9 true).err =
      some .writeProtection ∧
    PrecompileErr.writeProtection ≠ PrecompileErr.blockNumberNil ∧
    (setFeeConfig 1 acceptAll zeroState none 5 7 [] 9 true).state = zeroState :=
  ⟨by decide, by decide,
   C1_atomic_failure_amended 1 acceptAll zeroState none 5 7 [] 9 true
     .writeProtection (by decide) (by decide)⟩

/-- C4 counterexample: a 256-byte input whose second word is 2 ^ 64, one above
the 64-bit maximum, is not rejected: UnpackFeeConfigInput returns no error,
and the decoded targetBlockRate is 0, the low 64 bits of the word. -/
theorem C4_counterexample :
    (UnpackFeeConfigInput
        (hashBytes 0 ++ (hashBytes (2 ^ 64) ++ List.replicate 192 0))).2 = none ∧
    (UnpackFeeConfigInput
        (hashBytes 0 ++ (hashBytes (2 ^ 64) ++ List.replicate 192 0))).1.targetBlockRate
      = 0 := by
  decide

/-- C4 (amended): UnpackFeeConfigInput performs no 64-bit range check on the
targetBlockRate word: every 256-byte input is accepted without error, and the
decoded targetBlockRate is the low 64 bits of the second 32-byte word. -/
theorem C4_no_range_check_amended (input : List Nat) (h : input.length = 256) :
    (UnpackFeeConfigInput input).2 = none ∧
    (UnpackFeeConfigInput input).1.targetBlockRate =
      bytesToNat (returnPackedHash input 1) % 2 ^ 64 := by
  rw [UnpackFeeConfigInput_of_length input h]
  exact ⟨rfl, rfl⟩

/-- Witness for C4 (amended) at the counterexample input. -/
theorem C4_no_range_check_amended_witness :
    (hashBytes 0 ++ (hashBytes (2 ^ 64) ++ List.replicate 192 0)).length = 256 ∧
    ((UnpackFeeConfigInput
        (hashBytes 0 ++ (hashBytes (2 ^ 64) ++ List.replicate 192 0))).2 = none ∧
      (UnpackFeeConfigInput
        (hashBytes 0 ++ (hashBytes (2 ^ 64) ++ List.replicate 192 0))).1.targetBlockRate =
        bytesToNat (returnPackedHash
          (hashBytes 0 ++ (hashBytes (2 ^ 64) ++ List.replicate 192 0)) 1) % 2 ^ 64) :=
  ⟨by decide,
   C4_no_range_check_amended (hashBytes 0 ++ (hashBytes (2 ^ 64) ++ List.replicate 192 0))
     (by decide)⟩

/-- C5 counterexample: a caller whose role is None, with sufficient gas and
readOnly = false, calling setFeeConfig on an empty (wrong-length) input does
not fail unauthorized: decoding runs first, so the call fails with the
invalid-length error. -/
theorem C5_counterexample :
    (setFeeConfig 1 acceptAll zeroState (some 42) 5 7 [] 9 false).err =
      some (.invalidFeeConfigInputLen 0) ∧
    (setFeeConfig 1 acceptAll zeroState (some 42) 5 7 [] 9 false).err ≠
      some (.cannotChangeFee 5) := by
  decide

/-- C5 (amended): the mutating handler decodes its input before consulting the
allow-list policy: with sufficient gas and readOnly = false, a caller whose
role is None gets the unauthorized error exactly for well-formed 256-byte
inputs, and the malformed-input error for every input of any other length; in
both cases the state is unchanged. -/
theorem C5_decode_before_permission_amended (w : Nat) (v : FeeConfigVerify)
    (s : StateDB) (bc : BlockContext) (caller addr : Addr) (input : List Nat)
    (g : Nat) (hg : SetFeeConfigGasCost w ≤ g)
    (hrole : getAllowListStatus s FeeConfigManagerAddress caller = .noRole) :
    (input.length = 256 →
      setFeeConfig w v s bc caller addr input g false =
        ⟨none, g - SetFeeConfigGasCost w, some (.cannotChangeFee caller), s⟩) ∧
    (input.length ≠ 256 →
      setFeeConfig w v s bc caller addr input g false =
        ⟨none, g - SetFeeConfigGasCost w,
          some (.invalidFeeConfigInputLen input.length), s⟩) := by
  constructor
  · intro hlen
    simp [setFeeConfig, deductGas_of_le g _ hg,
      UnpackFeeConfigInput_of_length input hlen, hrole, AllowListRole.IsEnabled]
  · intro hlen
    simp [setFeeConfig, deductGas_of_le g _ hg,
      UnpackFeeConfigInput_of_length_ne input hlen]

/-- Witness for C5 (amended): the unauthorized branch at a well-formed input
and the malformed branch at a one-byte input. -/
theorem C5_decode_before_permission_amended_witness :
    SetFeeConfigGasCost 1 ≤ 9 ∧
    getAllowListStatus zeroState FeeConfigManagerAddress 5 = .noRole ∧
    setFeeConfig 1 acceptAll zeroState (some 42) 5 7 (List.replicate 256 0) 9 false =
      ⟨none, 9 - SetFeeConfigGasCost 1, some (.cannotChangeFee 5), zeroState⟩ ∧
    setFeeConfig 1 acceptAll zeroState (some 42) 5 7 [0] 9 false =
      ⟨none, 9 - SetFeeConfigGasCost 1, some (.invalidFeeConfigInputLen 1), zeroState⟩ :=
  ⟨by decide, by decide,
   (C5_decode_before_permission_amended 1 acceptAll zeroState (some 42) 5 7
     (List.replicate 256 0) 9 (by decide) (by decide)).1 (by decide),
   (C5_decode_before_permission_amended 1 acceptAll zeroState (some 42) 5 7
     [0] 9 (by decide) (by decide)).2 (by decide)⟩

/-- C3: for every valid FeeConfig record — all eight field values
representable in a 256-bit word and targetBlockRate in 64-bit range —
unpacking the result of packing the record yields the record again. -/
theorem C3_round_trip (c : FeeConfig)
    (h1 : c.gasLimit < 2 ^ 256) (h2 : c.targetBlockRate < 2 ^ 64)
    (h3 : c.minBaseFee < 2 ^ 256) (h4 : c.targetGas < 2 ^ 256)
    (h5 : c.baseFeeChangeDenominator < 2 ^ 256) (h6 : c.minBlockGasCost < 2 ^ 256)
    (h7 : c.maxBlockGasCost < 2 ^ 256) (h8 : c.blockGasCostStep < 2 ^ 256) :
    UnpackFeeConfigInput (PackFeeConfig c) = (c, none) := by
  rw [unpack_pack c, Nat.mod_eq_of_lt h1, Nat.mod_eq_of_lt h2, Nat.mod_eq_of_lt h3,
    Nat.mod_eq_of_lt h4, Nat.mod_eq_of_lt h5, Nat.mod_eq_of_lt h6, Nat.mod_eq_of_lt h7,
    Nat.mod_eq_of_lt h8]

/-- Witness for C3 at the scenario record of the spec. -/
theorem C3_round_trip_witness :
    scenarioFeeConfig.gasLimit < 2 ^ 256 ∧
    scenarioFeeConfig.targetBlockRate < 2 ^ 64 ∧
    UnpackFeeConfigInput (PackFeeConfig scenarioFeeConfig) = (scenarioFeeConfig, none) :=
  ⟨by decide, by decide,
   C3_round_trip scenarioFeeConfig (by decide) (by decide) (by decide) (by decide)
     (by decide) (by decide) (by decide) (by decide)⟩

/-- C9: for a record that passes validation and a present block number,
StoreFeeConfig writes field i (i = 1..8, in the order gasLimit,
targetBlockRate, minBaseFee, targetGas, baseFeeChangeDenominator,
minBlockGasCost, maxBlockGasCost, blockGasCostStep) to the slot key whose
first byte is i and remaining bytes are zero; last-changed-at goes to the
fixed key built from the bytes l, c, a, which differs from every
single-byte-tag key; and the nine written keys are pairwise distinct. -/
theorem C9_storage_layout (v : FeeConfigVerify) (s : StateDB) (c : FeeConfig)
    (n : Nat) (hv : v c = true) :
    getState (StoreFeeConfig v s c (some n)).1 FeeConfigManagerAddress
      (feeConfigSlotKey 1) = bigToHash c.gasLimit ∧
    getState (StoreFeeConfig v s c (some n)).1 FeeConfigManagerAddress
      (feeConfigSlotKey 2) = bigToHash (c.targetBlockRate % 2 ^ 64) ∧
    getState (StoreFeeConfig v s c (some n)).1 FeeConfigManagerAddress
      (feeConfigSlotKey 3) = bigToHash c.minBaseFee ∧
    getState (StoreFeeConfig v s c (some n)).1 FeeConfigManagerAddress
      (feeConfigSlotKey 4) = bigToHash c.targetGas ∧
    getState (StoreFeeConfig v s c (some n)).1 FeeConfigManagerAddress
      (feeConfigSlotKey 5) = bigToHash c.baseFeeChangeDenominator ∧
    getState (StoreFeeConfig v s c (some n)).1 FeeConfigManagerAddress
      (feeConfigSlotKey 6) = bigToHash c.minBlockGasCost ∧
    getState (StoreFeeConfig v s c (some n)).1 FeeConfigManagerAddress
      (feeConfigSlotKey 7) = bigToHash c.maxBlockGasCost ∧
    getState (StoreFeeConfig v s c (some n)).1 FeeConfigManagerAddress
      (feeConfigSlotKey 8) = bigToHash c.blockGasCostStep ∧
    getState (StoreFeeConfig v s c (some n)).1 FeeConfigManagerAddress
      feeConfigLastChangedAtKey = bigToHash n ∧
    (∀ i, 1 ≤ i → i ≤ 8 → feeConfigLastChangedAtKey ≠ feeConfigSlotKey i) ∧
    List.Pairwise (fun a b => a ≠ b) feeConfigAllSlotKeys := by
  obtain ⟨-, h1, h2, h3, h4, h5, h6, h7, h8, h9, -⟩ := StoreFeeConfig_some_spec v s c n hv
  exact ⟨h1, h2, h3, h4, h5, h6, h7, h8, h9,
    fun i _ _ => lcaKey_ne_slotKey i, by decide⟩

/-- Witness for C9 at the scenario record. -/
theorem C9_storage_layout_witness :
    acceptAll scenarioFeeConfig = true ∧
    getState (StoreFeeConfig acceptAll zeroState scenarioFeeConfig (some 42)).1
      FeeConfigManagerAddress (feeConfigSlotKey 1) = bigToHash scenarioFeeConfig.gasLimit :=
  ⟨by decide,
   (C9_storage_layout acceptAll zeroState scenarioFeeConfig 42 (by decide)).1⟩

/-- C2: a setFeeConfig call by a caller whose role is Enabled or Admin, with a
valid, well-formed 256-byte input, sufficient gas, readOnly = false and a
present block number N succeeds; afterwards getFeeConfig returns exactly the
packed input record and getFeeConfigLastChangedAt returns N as a 32-byte
word. -/
theorem C2_success_postcondition (w r : Nat) (v : FeeConfigVerify) (s : StateDB)
    (n : Nat) (caller addr : Addr) (input : List Nat) (g : Nat)
    (caller2 addr2 caller3 addr3 : Addr) (in2 in3 : List Nat) (g2 g3 : Nat)
    (ro2 ro3 : Bool)
    (hg : SetFeeConfigGasCost w ≤ g)
    (hlen : input.length = 256)
    (hb : ∀ b ∈ input, b < 256)
    (htbr : bytesToNat (returnPackedHash input 1) < 2 ^ 64)
    (hrole : (getAllowListStatus s FeeConfigManagerAddress caller).IsEnabled = true)
    (hv : v (UnpackFeeConfigInput input).1 = true)
    (hn : n < 2 ^ 256)
    (hg2 : GetFeeConfigGasCost r ≤ g2)
    (hg3 : GetLastChangedAtGasCost r ≤ g3) :
    (setFeeConfig w v s (some n) caller addr input g false).err = none ∧
    (getFeeConfig r (setFeeConfig w v s (some n) caller addr input g false).state
        caller2 addr2 in2 g2 ro2).ret = some input ∧
    (getFeeConfigLastChangedAt r
        (setFeeConfig w v s (some n) caller addr input g false).state
        caller3 addr3 in3 g3 ro3).ret = some (hashBytes n) := by
  have hu : UnpackFeeConfigInput input = ((UnpackFeeConfigInput input).1, none) := by
    rw [UnpackFeeConfigInput_of_length input hlen]
  have hmain := setFeeConfig_success w v s n caller addr input g
    ((UnpackFeeConfigInput input).1) hg hu hrole hv
  rw [hmain]
  refine ⟨rfl, ?_, ?_⟩
  · simp only [getFeeConfig, deductGas_of_le g2 (GetFeeConfigGasCost r) hg2,
      pack_getstored_eq_input input hlen hb htbr v s n hv]
  · have hlca := GetFeeConfigLastChangedAt_StoreFeeConfig v s
      ((UnpackFeeConfigInput input).1) n hv
    have hbn : bigToHash (bigToHash n) = bigToHash n := by
      simp [bigToHash, Nat.mod_mod_of_dvd]
    have hn2 : bigToHash n = n := Nat.mod_eq_of_lt hn
    simp only [getFeeConfigLastChangedAt,
      deductGas_of_le g3 (GetLastChangedAtGasCost r) hg3, hlca, hbn, hn2]

/-- Witness for C2: the full scenario of the spec, with an enabled caller
storing the scenario record at block 42. -/
theorem C2_success_postcondition_witness :
    (getAllowListStatus enabledState FeeConfigManagerAddress 5).IsEnabled = true ∧
    ((setFeeConfig 1 acceptAll enabledState (some 42) 5 7
        (PackFeeConfig scenarioFeeConfig) 9 false).err = none ∧
     (getFeeConfig 1 (setFeeConfig 1 acceptAll enabledState (some 42) 5 7
          (PackFeeConfig scenarioFeeConfig) 9 false).state 6 7 [] 8 true).ret =
        some (PackFeeConfig scenarioFeeConfig) ∧
     (getFeeConfigLastChangedAt 1 (setFeeConfig 1 acceptAll enabledState (some 42) 5 7
          (PackFeeConfig scenarioFeeConfig) 9 false).state 6 7 [] 1 true).ret =
        some (hashBytes 42)) :=
  ⟨by decide,
   C2_success_postcondition 1 1 acceptAll enabledState 42 5 7
     (PackFeeConfig scenarioFeeConfig) 9 6 7 6 7 [] [] 8 1 true true
     (by decide) (by decide) (by decide) (by decide) (by decide) (by decide)
     (by decide) (by decide) (by decide)⟩

end Precompile
